import Mathlib

/-!
Verification of the FuzzDex fuzzy phrase index (Rust sources under src/).

Shallow embedding conventions:
* Rust `usize` is modelled as `Nat`; the sentinel `usize::MAX` is the
  explicit constant `usizeMax = 2 ^ 64 - 1`.
* Rust `f32` scores are modelled as exact rationals `ℚ` in the build and
  search layers (no rounding); the freeze-time `tanh` scoring formula is
  modelled over `ℝ` where the analytic facts live.
* `HashMap` is modelled as an association list; the nondeterministic hash
  iteration order becomes the deterministic insertion order of that list.
* Unicode graphemes are modelled as `Char`; the NFD decomposition and the
  grapheme segmentation of the `unicode_*` crates (outside src/) collapse
  to the identity on this alphabet, with the explicit replacement table of
  `utils::trigramize` kept.
* The `Mutex<Cache>` of `seeker::Index` is modelled by threading the cache
  state explicitly through `create_heatmap` and `search`.
-/

/-- Rust usize::MAX on a 64-bit target (used by unwrap_or sentinels). -/
def usizeMax : Nat := 2 ^ 64 - 1

/-! ## Text utilities (src/src/utils.rs) -/

/-- Characters of the SEPARATOR regex class in src/src/utils.rs
(the regex splits on runs of these characters). -/
def separator_chars : List Char :=
  ['-', ' ', '\t', '\n', Char.ofNat 39, '’', Char.ofNat 96, '„',
   Char.ofNat 34, '_', '.', ',', ';', ':', '=']

def isSeparator (c : Char) : Bool := separator_chars.contains c

/-- split a character list at every character satisfying p (the splitter
keeps empty pieces, exactly like String::split at each match). -/
def splitChars (p : Char → Bool) : List Char → List (List Char)
  | [] => [[]]
  | c :: cs =>
    if p c then [] :: splitChars p cs
    else
      match splitChars p cs with
      | [] => [[c]]
      | t :: ts => (c :: t) :: ts

/-- str::trim — drop leading and trailing whitespace characters. -/
def trimChars (l : List Char) : List Char :=
  (((l.dropWhile Char.isWhitespace).reverse).dropWhile Char.isWhitespace).reverse

/-- UTF-8 byte length of a character list (str::len counts bytes). -/
def utf8Len (l : List Char) : Nat := (l.map Char.utf8Size).sum

/-- tokenize from src/src/utils.rs: split the phrase on separator
characters, trim and lowercase every piece, and keep pieces whose UTF-8
byte length is at least min_length.  The Rust regex splits on runs of
separators; splitting at every separator character instead yields extra
empty pieces, which the length filter removes for min_length ≥ 1, so the
token list is the same.  Unicode lowercasing is modelled per character. -/
def tokenize (phrase : String) (min_length : Nat) : List String :=
  (((splitChars isSeparator phrase.toList).map
      (fun t => (trimChars t).map Char.toLower)).filter
    (fun t => min_length ≤ utf8Len t)).map String.mk

/-- Modelled from the spec: the NFD decomposition plus nonspacing-mark
filtering performed by the unicode_normalization crate (outside src/) is
the identity on the modelled alphabet; the explicit replacement table
ł→l, ß→ss of utils::trigramize is kept (a replacement may grow the
character count, hence the list result). -/
def foldChar (c : Char) : List Char :=
  if c = 'ł' then ['l']
  else if c = 'ß' then ['s', 's']
  else [c]

/-- trigramize from src/src/utils.rs: normalize the token, segment into
graphemes (modelled as Chars), emit sliding trigrams for length ≥ 3,
pseudo-trigrams padded with spaces for lengths 1 and 2, and two extra
augmentation trigrams for lengths 4 and 5. -/
def trigramize (token : String) : List String :=
  let g : List Char := (token.toList.map foldChar).flatten
  let cnt := g.length
  let base : List String :=
    if 3 ≤ cnt then
      (List.range (cnt - 2)).map (fun i => String.mk ((g.drop i).take 3))
    else []
  match cnt with
  | 1 => base ++ [String.mk (g.take 1) ++ "  "]
  | 2 => base ++ [String.mk (g.take 2) ++ " "]
  | 4 => base ++
      [String.mk [g.getD 0 ' ', g.getD 1 ' ', g.getD (cnt - 1) ' '],
       String.mk [g.getD 0 ' ', g.getD (cnt - 2) ' ', g.getD (cnt - 1) ' ']]
  | 5 => base ++
      [String.mk [g.getD 0 ' ', g.getD 1 ' ', g.getD (cnt - 1) ' '],
       String.mk [g.getD 0 ' ', g.getD (cnt - 2) ' ', g.getD (cnt - 1) ' ']]
  | _ => base

/-- Modelled from the spec: the levenshtein_diff crate used by
utils::distance is outside src/; this is the classic unit-cost edit
distance tabulation (insertion, deletion, substitution) it implements.
levLoop is one inner step: walk the second word and the previous row
together, carrying the diagonal and the value to the left. -/
def levLoop (ca : Char) : List Char → List Nat → Nat → List Nat
  | bj :: bs, pd :: pj :: prest, left =>
    let v := min (pj + 1) (min (left + 1) (pd + (if ca = bj then 0 else 1)))
    v :: levLoop ca bs (pj :: prest) v
  | _, _, _ => []

def levenshtein_tabulation (a b : List Char) : Nat :=
  let row0 := List.range (b.length + 1)
  let lastRow := a.foldl
    (fun prev ca => ((prev.headD 0) + 1) :: levLoop ca b prev ((prev.headD 0) + 1))
    row0
  lastRow.getLastD 0

/-- distance from src/src/utils.rs: Levenshtein distance over the first
500 graphemes (modelled as Chars) of each side. -/
def distance (side_a side_b : String) : Nat :=
  levenshtein_tabulation (side_a.toList.take 500) (side_b.toList.take 500)

/-! ## Data model (structs of the fuzzdex module root, used by
src/src/fuzzdex/indexer.rs and seeker.rs; the module-root file itself is
not under src/, so the field layout is modelled from the spec data model
and from every use in the present sources) -/

/-- Modelled from the spec: Position — one occurrence of a trigram,
(phrase id, token index within the phrase token list). -/
structure Position where
  phrase_idx : Nat
  token_idx : Nat
deriving DecidableEq

/-- Modelled from the spec: TrigramEntry — append-only positions plus an
f32 score; during build the score field doubles as the occurrence
counter (add_token does entry.score += 1.0). -/
structure TrigramEntry where
  positions : List Position
  score : ℚ
deriving DecidableEq

/-- Modelled from the spec: PhraseEntry — id, verbatim origin, tokenized
form, and the constraint set (modelled as a list, membership only). -/
structure PhraseEntry where
  idx : Nat
  origin : String
  tokens : List String
  constraints : List Nat
deriving DecidableEq

/-- Modelled from the spec: the build-phase Indexer holding the trigram
inverted index and the phrase table, keyed association lists standing in
for the two HashMaps. -/
structure Indexer where
  db : List (String × TrigramEntry)
  phrases : List (Nat × PhraseEntry)
deriving DecidableEq

/-- Modelled from the spec: the DuplicateId error of add_phrase. -/
structure DuplicateId where
deriving DecidableEq

/-! ## Indexer (src/src/fuzzdex/indexer.rs) -/

def PhraseEntry.new (idx : Nat) (phrase : String) (constraints : List Nat) :
    PhraseEntry :=
  { idx := idx
    origin := phrase
    tokens := tokenize phrase 1
    constraints := constraints }

def Indexer.new : Indexer := { db := [], phrases := [] }

/-- db.entry(trigram).or_insert(empty).positions.push(pos); score += 1.0 —
association-list form: update the entry in place, or append a fresh one. -/
def dbAdd : List (String × TrigramEntry) → String → Position →
    List (String × TrigramEntry)
  | [], tg, pos => [(tg, { positions := [pos], score := 0 + 1 })]
  | (t, e) :: rest, tg, pos =>
    if t = tg then
      (t, { positions := e.positions ++ [pos], score := e.score + 1 }) :: rest
    else (t, e) :: dbAdd rest tg pos

def Indexer.add_token (ind : Indexer) (token : String) (phrase_idx : Nat)
    (token_idx : Nat) : Indexer :=
  { ind with
    db := (trigramize token).foldl
      (fun db tg => dbAdd db tg { phrase_idx := phrase_idx, token_idx := token_idx })
      ind.db }

/-- add_phrase from src/src/fuzzdex/indexer.rs, with the &mut receiver made
explicit: the returned Indexer is the post-call state, the Option the
error of the Result (some DuplicateId on the Err path, where the state is
returned untouched). -/
def Indexer.add_phrase (ind : Indexer) (phrase : String) (phrase_idx : Nat)
    (constraints : List Nat) : Indexer × Option DuplicateId :=
  if (ind.phrases.lookup phrase_idx).isSome then
    (ind, some {})
  else
    let entry := PhraseEntry.new phrase_idx phrase constraints
    let ind' := entry.tokens.enum.foldl
      (fun acc p => acc.add_token p.2 phrase_idx p.1) ind
    ({ ind' with phrases := ind'.phrases ++ [(phrase_idx, entry)] }, none)

/-- Indexer states reachable from Indexer::new by add_phrase calls. -/
inductive Reachable : Indexer → Prop
  | new : Reachable Indexer.new
  | add (phrase : String) (phrase_idx : Nat) (constraints : List Nat)
      (ind : Indexer) : Reachable ind →
      Reachable (ind.add_phrase phrase phrase_idx constraints).1

/-! ## Heatmap (src/src/fuzzdex/seeker/heatmap.rs) -/

structure PhraseHeatmap where
  phrase_idx : Nat
  tokens : List (Nat × ℚ)
  total_score : ℚ
deriving DecidableEq

def PhraseHeatmap.new (phrase_idx : Nat) : PhraseHeatmap :=
  { phrase_idx := phrase_idx, tokens := [], total_score := 0 }

structure Heatmap where
  phrases : List (Nat × PhraseHeatmap)
  max_score : ℚ
deriving DecidableEq

def Heatmap.new : Heatmap := { phrases := [], max_score := 0 }

/-- map.entry(k).or_insert(0.0) += score on an association list. -/
def bumpAssoc : List (Nat × ℚ) → Nat → ℚ → List (Nat × ℚ)
  | [], k, s => [(k, 0 + s)]
  | (k', v) :: rest, k, s =>
    if k' = k then (k', v + s) :: rest else (k', v) :: bumpAssoc rest k s

/-- replace the value under a key, or append the binding. -/
def setAssoc {β : Type} : List (Nat × β) → Nat → β → List (Nat × β)
  | [], k, v => [(k, v)]
  | (k', v') :: rest, k, v =>
    if k' = k then (k', v) :: rest else (k', v') :: setAssoc rest k v

def Heatmap.add_phrase (h : Heatmap) (phrase_idx : Nat) (token_idx : Nat)
    (score : ℚ) : Heatmap :=
  let ph := ((h.phrases.lookup phrase_idx).getD (PhraseHeatmap.new phrase_idx))
  let ph' : PhraseHeatmap :=
    { ph with
      tokens := bumpAssoc ph.tokens token_idx score
      total_score := ph.total_score + score }
  { phrases := setAssoc h.phrases phrase_idx ph'
    max_score := if ph'.total_score > h.max_score then ph'.total_score
                 else h.max_score }

def Heatmap.len_phrases (h : Heatmap) : Nat := h.phrases.length

def Heatmap.has_phrase (h : Heatmap) (phrase_idx : Nat) : Bool :=
  (h.phrases.lookup phrase_idx).isSome

/-! ## Query (src/src/fuzzdex/query.rs) -/

structure Query where
  must : String
  should : List String
  constraint : Option Nat
  limit : Option Nat
  max_distance : Option Nat
  scan_cutoff : ℚ
deriving DecidableEq

/-- comparison of tokens.sort_unstable_by_key(|t| -(t.len() as i64)):
longest UTF-8 byte length first. -/
def lenGE (a b : String) : Prop := b.utf8ByteSize ≤ a.utf8ByteSize

instance : DecidableRel lenGE :=
  fun a b => inferInstanceAs (Decidable (b.utf8ByteSize ≤ a.utf8ByteSize))

instance : IsTotal String lenGE := ⟨fun a b => le_total b.utf8ByteSize a.utf8ByteSize⟩

instance : IsTrans String lenGE := ⟨fun _ _ _ h h' => le_trans h' h⟩

/-- tokens.sort_unstable_by_key(|t| -(t.len() as i64)) — sort by UTF-8 byte
length, longest first (the unstable tie order is modelled by insertion
sort). -/
def sortByLenDesc (tokens : List String) : List String :=
  List.insertionSort lenGE tokens

def Query.new (must : String) (should : List String) : Query :=
  let should_tokens := should
  let tokens : List String := tokenize must 1
  let sorted := sortByLenDesc tokens
  let must_token : String :=
    if tokens.length > 1 then sorted.headD "" else must
  let should_tokens :=
    if tokens.length > 1 then should_tokens ++ sorted.tail else should_tokens
  { must := must_token
    should := should_tokens
    constraint := none
    limit := none
    max_distance := some 2
    scan_cutoff := 3 / 10 }

def Query.constraint' (q : Query) (constraint : Option Nat) : Query :=
  { q with constraint := constraint }

def Query.max_distance' (q : Query) (max_distance : Option Nat) : Query :=
  { q with max_distance := max_distance }

def Query.limit' (q : Query) (limit : Option Nat) : Query :=
  { q with limit := limit }

def Query.scan_cutoff' (q : Query) (cutoff : ℚ) : Query :=
  { q with scan_cutoff := cutoff }

/-! ## Seeker (src/src/fuzzdex/seeker.rs) -/

structure SearchResult where
  origin : String
  index : Nat
  token : String
  distance : Nat
  score : ℚ
  should_score : ℚ
deriving DecidableEq

structure CacheStats where
  hits : Nat
  misses : Nat
  inserts : Nat
  size : Nat
deriving DecidableEq

/-- the LRU cache behind the Mutex: association list ordered most recently
used first, plus the stats counters and the fixed capacity. -/
structure Cache where
  stats : CacheStats
  heatmaps : List (String × Heatmap)
  capacity : Nat
deriving DecidableEq

def Cache.new (capacity : Nat) : Cache :=
  { stats := { hits := 0, misses := 0, inserts := 0, size := 0 }
    heatmaps := []
    capacity := capacity }

/-- LruCache::get + clone on hit: move the entry to the front. -/
def lruBump (entries : List (String × Heatmap)) (token : String)
    (h : Heatmap) : List (String × Heatmap) :=
  (token, h) :: entries.filter (fun e => e.1 ≠ token)

/-- LruCache::put: insert at the front, evicting the least recently used
entries beyond the capacity. -/
def lruPut (cap : Nat) (entries : List (String × Heatmap)) (token : String)
    (h : Heatmap) : List (String × Heatmap) :=
  ((token, h) :: entries.filter (fun e => e.1 ≠ token)).take cap

/-- the cache-miss computation of create_heatmap: walk the trigrams of the
token, and fold every stored position of each hit into the heatmap. -/
def computeHeatmap (db : List (String × TrigramEntry)) (token : String) :
    Heatmap :=
  (trigramize token).foldl
    (fun hm tg =>
      match db.lookup tg with
      | none => hm
      | some entry =>
        entry.positions.foldl
          (fun hm pos => hm.add_phrase pos.phrase_idx pos.token_idx entry.score)
          hm)
    Heatmap.new

/-- create_heatmap from src/src/fuzzdex/seeker.rs with the Mutex state made
explicit: on hit bump the LRU position and count a hit; on miss count a
miss, compute, insert, and count an insert. -/
def Index.create_heatmap (ind : Indexer) (c : Cache) (token : String) :
    Heatmap × Cache :=
  match c.heatmaps.lookup token with
  | some hm =>
    (hm, { c with
           stats := { c.stats with hits := c.stats.hits + 1 }
           heatmaps := lruBump c.heatmaps token hm })
  | none =>
    let hm := computeHeatmap ind.db token
    (hm, { c with
           stats := { c.stats with
                      misses := c.stats.misses + 1
                      inserts := c.stats.inserts + 1 }
           heatmaps := lruPut c.capacity c.heatmaps token hm })

/-- should_scores from src/src/fuzzdex/seeker.rs: for the first 4 trigrams
of every should token, add the entry score to every heatmap phrase that
passes the constraint. -/
def Index.should_scores (ind : Indexer) (heatmap : Heatmap)
    (should_tokens : List String) (constraint : Option Nat) :
    List (Nat × ℚ) :=
  should_tokens.foldl
    (fun map token =>
      ((trigramize token).take 4).foldl
        (fun map tg =>
          match ind.db.lookup tg with
          | none => map
          | some entry =>
            entry.positions.foldl
              (fun map pos =>
                let skip : Bool :=
                  match constraint with
                  | some cid =>
                    match ind.phrases.lookup pos.phrase_idx with
                    | some pe => !(pe.constraints.contains cid)
                    | none => true
                  | none => false
                if skip then map
                else if heatmap.has_phrase pos.phrase_idx then
                  bumpAssoc map pos.phrase_idx entry.score
                else map)
              map)
        map)
    []

/-- intermediate tuple of the filter_map in filtered_results: the phrase
heatmap extended with the phrase entry and its should score. -/
structure Candidate where
  heat : PhraseHeatmap
  phrase : PhraseEntry
  should_score : ℚ
deriving DecidableEq

/-- sort key of the candidate scan: combined score descending, then origin
byte length ascending (the comparator swaps sides on the score part). -/
def scanKey (c : Candidate) : ℚ ×ₗ ℕ :=
  toLex (-(c.heat.total_score + c.should_score), c.phrase.origin.utf8ByteSize)

def scanLE (a b : Candidate) : Prop := scanKey a ≤ scanKey b

instance : DecidableRel scanLE :=
  fun a b => inferInstanceAs (Decidable (scanKey a ≤ scanKey b))

instance : IsTotal Candidate scanLE := ⟨fun a b => le_total (scanKey a) (scanKey b)⟩

instance : IsTrans Candidate scanLE := ⟨fun _ _ _ h h' => le_trans h h'⟩

/-- the candidate list of filtered_results: heatmap phrases joined with the
phrase table and should scores, constraint-filtered, sorted by scanKey. -/
def Index.scan_candidates (ind : Indexer) (query : Query) (heatmap : Heatmap)
    (should_scores : List (Nat × ℚ)) : List Candidate :=
  let cands : List Candidate := heatmap.phrases.filterMap
    (fun e =>
      match ind.phrases.lookup e.2.phrase_idx with
      | none => none
      | some phrase =>
        let should_score := (should_scores.lookup e.2.phrase_idx).getD 0
        let extended : Candidate :=
          { heat := e.2, phrase := phrase, should_score := should_score }
        match query.constraint with
        | some c =>
          if phrase.constraints.contains c then some extended else none
        | none => some extended)
  List.insertionSort scanLE cands

/-- sort key of the token scan inside one phrase: token score descending,
then token byte length ascending. -/
def tokKey (p : ℚ × String) : ℚ ×ₗ ℕ := toLex (-p.1, p.2.utf8ByteSize)

def tokLE (a b : ℚ × String) : Prop := tokKey a ≤ tokKey b

instance : DecidableRel tokLE :=
  fun a b => inferInstanceAs (Decidable (tokKey a ≤ tokKey b))

instance : IsTotal (ℚ × String) tokLE := ⟨fun a b => le_total (tokKey a) (tokKey b)⟩

instance : IsTrans (ℚ × String) tokLE := ⟨fun _ _ _ h h' => le_trans h h'⟩

/-- the token selection of filtered_results: walk the token heatmap of the
phrase by decreasing score (shortest first on ties) and return the first
token within max_distance of the must token, with its score and distance.
Rust indexes phrase.tokens[token_idx] (panics when out of bounds; in
reachable states the index is in bounds), modelled with getD. -/
def Index.valid_token (query : Query) (phrase : PhraseEntry)
    (ph : PhraseHeatmap) (max_distance : Nat) : Option (String × ℚ × Nat) :=
  let pairs : List (ℚ × String) :=
    ph.tokens.map (fun e => (e.2, phrase.tokens.getD e.1 ""))
  let sorted := List.insertionSort tokLE pairs
  (sorted.map (fun p => (p.2, p.1, distance p.2 query.must))).find?
    (fun t => t.2.2 ≤ max_distance)

/-- the scan loop of filtered_results: cutoff break, token selection,
result emission, best-distance update, limit break. -/
def scanLoop (query : Query) (heatmap : Heatmap) (limit : Nat)
    (max_distance : Nat) :
    List Candidate → Nat → List SearchResult → List SearchResult
  | [], _, results => results
  | c :: rest, best_distance, results =>
    if best_distance = 0 ∧
        c.heat.total_score < query.scan_cutoff * heatmap.max_score then
      results
    else
      match Index.valid_token query c.phrase c.heat max_distance with
      | none => scanLoop query heatmap limit max_distance rest best_distance results
      | some (token, token_score, dist) =>
        let results' := results ++
          [{ origin := c.phrase.origin
             index := c.phrase.idx
             token := token
             distance := dist
             score := token_score
             should_score := c.should_score }]
        let best' := min dist best_distance
        if best' = 0 ∧ limit ≤ results'.length then results'
        else scanLoop query heatmap limit max_distance rest best' results'

/-- final sort key: distance ascending, score descending, should score
descending, origin byte length ascending, origin ascending (byte-wise
string order modelled as the code-point lexicographic order, which UTF-8
preserves). -/
def resKey (r : SearchResult) : ℕ ×ₗ ℚ ×ₗ ℚ ×ₗ ℕ ×ₗ List Char :=
  toLex (r.distance, toLex (-r.score, toLex (-r.should_score,
    toLex (r.origin.utf8ByteSize, r.origin.toList))))

def resLE (a b : SearchResult) : Prop := resKey a ≤ resKey b

instance : DecidableRel resLE :=
  fun a b => inferInstanceAs (Decidable (resKey a ≤ resKey b))

instance : IsTotal SearchResult resLE := ⟨fun a b => le_total (resKey a) (resKey b)⟩

instance : IsTrans SearchResult resLE := ⟨fun _ _ _ h h' => le_trans h h'⟩

/-- filtered_results from src/src/fuzzdex/seeker.rs: scan the sorted
candidates with the cutoff and limit breaks, then sort by the final key
and truncate to the limit. -/
def Index.filtered_results (ind : Indexer) (query : Query) (heatmap : Heatmap)
    (should_scores : List (Nat × ℚ)) : List SearchResult :=
  let max_distance : Nat := query.max_distance.getD usizeMax
  let limit : Nat := query.limit.getD usizeMax
  let cands := Index.scan_candidates ind query heatmap should_scores
  let results := scanLoop query heatmap limit max_distance cands usizeMax []
  (List.insertionSort resLE results).take limit

/-- search from src/src/fuzzdex/seeker.rs, cache state threaded
explicitly. -/
def Index.search (ind : Indexer) (c : Cache) (query : Query) :
    List SearchResult × Cache :=
  let hc := Index.create_heatmap ind c query.must
  let ss := Index.should_scores ind hc.1 query.should query.constraint
  (Index.filtered_results ind query hc.1 ss, hc.2)

/-- cache_stats from src/src/fuzzdex/seeker.rs: the stored counters with
the live LRU length as size. -/
def Index.cache_stats (c : Cache) : CacheStats :=
  { c.stats with size := c.heatmaps.length }

/-! ## Freeze-time trigram scoring (src/src/fuzzdex/indexer.rs,
finish_with_cache) -/

/-- average of positions.len() over the db entries. -/
noncomputable def dbAverage (db : List (String × TrigramEntry)) : ℝ :=
  ((db.map (fun e => e.2.positions.length)).sum : ℝ) / (db.length : ℝ)

/-- max of positions.len() over the db entries, unwrap_or(1). -/
def dbMaxCount (db : List (String × TrigramEntry)) : Nat :=
  ((db.map (fun e => e.2.positions.length)).max?).getD 1

/-- the per-entry score computed by finish_with_cache:
0.5 + tanh(5 · (average − popularity − 1) / max) / 2, where popularity is
the f32 counter accumulated by add_token. -/
noncomputable def trigram_score (average : ℝ) (maxCount : Nat)
    (popularity : ℚ) : ℝ :=
  0.5 + Real.tanh (5 * (average - (popularity : ℝ) - 1) / (maxCount : ℝ)) / 2

/-- the db after finish_with_cache: empty db untouched (early return),
otherwise every entry score replaced by trigram_score. -/
noncomputable def frozenDb (db : List (String × TrigramEntry)) :
    List (String × (List Position × ℝ)) :=
  if db.isEmpty then
    db.map (fun e => (e.1, (e.2.positions, (e.2.score : ℝ))))
  else
    db.map (fun e =>
      (e.1, (e.2.positions, trigram_score (dbAverage db) (dbMaxCount db) e.2.score)))

/-! ## PyO3 binding layer (src/src/lib.rs) -/

/-- Modelled from the spec: the PyErr values raised by the binding,
identified by their message. -/
structure PyErr where
  msg : String
deriving DecidableEq

/-- the two states of the binding wrapper (lib.rs enum FuzzDex); the
frozen variant carries the wrapped Indexer and its cache (the score
freeze itself is modelled separately by frozenDb). -/
inductive FuzzDex where
  | indexer (ind : Indexer)
  | index (ind : Indexer) (cache : Cache)
deriving DecidableEq

/-- PyFuzzDex::finish from src/src/lib.rs: default cache_size 10000,
cache_size 0 rejected before the state check, Indexer frozen via
finish_with_cache, frozen state rejected. -/
def pyFinish (st : FuzzDex) (cache_size : Option Nat) : Except PyErr FuzzDex :=
  let cs := cache_size.getD 10000
  if cs = 0 then .error { msg := "Cache size must be at least 1" }
  else
    match st with
    | .indexer ind => .ok (.index ind (Cache.new cs))
    | .index _ _ => .error { msg := "Index is already finished." }

/-- Indexer::finish_with_cache, state part seen by the search layer: the
frozen db (scores replaced, empty db untouched), the phrase table, and a
fresh cache of the requested capacity (Index::new). -/
noncomputable def Indexer.finish_with_cache (ind : Indexer) (cache_size : Nat) :
    (List (String × (List Position × ℝ)) × List (Nat × PhraseEntry)) × Cache :=
  ((frozenDb ind.db, ind.phrases), Cache.new cache_size)

/-- Indexer::finish — finish_with_cache with the default capacity 2000. -/
noncomputable def Indexer.finish (ind : Indexer) :
    (List (String × (List Position × ℝ)) × List (Nat × PhraseEntry)) × Cache :=
  ind.finish_with_cache 2000

/-! ## Theorems -/

/-- C5: add_phrase with an id already present returns the DuplicateId
error and leaves the Indexer unchanged; add_phrase with a fresh id
returns ok. -/
theorem add_phrase_duplicate_is_noop (ind : Indexer) (phrase : String)
    (phrase_idx : Nat) (constraints : List Nat) :
    ((ind.phrases.lookup phrase_idx).isSome = true →
      ind.add_phrase phrase phrase_idx constraints = (ind, some {})) ∧
    ((ind.phrases.lookup phrase_idx).isSome = false →
      (ind.add_phrase phrase phrase_idx constraints).2 = none) := by
  constructor <;> intro h <;> simp [Indexer.add_phrase, h]

def dupIndexer : Indexer := (Indexer.new.add_phrase "phrase one, rather long" 1 []).1

theorem add_phrase_duplicate_is_noop_witness :
    dupIndexer.add_phrase "phrase two, duplicated id" 1 [] = (dupIndexer, some {}) ∧
    (Indexer.new.add_phrase "phrase one, rather long" 1 []).2 = none :=
  ⟨(add_phrase_duplicate_is_noop dupIndexer "phrase two, duplicated id" 1 []).1
      (by decide),
   (add_phrase_duplicate_is_noop Indexer.new "phrase one, rather long" 1 []).2
      (by decide)⟩

/-- C10: when tokenization of the must argument with min_length 1 yields
at most one token, Query::new stores the original input string verbatim
in the must field (no lowercasing, trimming or separator removal). -/
theorem query_new_single_token_keeps_input (must : String)
    (should : List String) (h : (tokenize must 1).length ≤ 1) :
    (Query.new must should).must = must := by
  have hn : ¬ ((tokenize must 1).length > 1) := by omega
  simp [Query.new, hn]

theorem query_new_single_token_keeps_input_witness :
    (tokenize "ABC" 1).length ≤ 1 ∧ (Query.new "ABC" []).must = "ABC" :=
  ⟨by decide, query_new_single_token_keeps_input "ABC" [] (by decide)⟩

/-- C7: when tokenization of the must argument with min_length 1 yields
two or more tokens, Query::new picks a longest token as must and appends
all the remaining tokens to the caller-supplied should list. -/
theorem query_new_multi_token_split (must : String) (should : List String)
    (h : 2 ≤ (tokenize must 1).length) :
    (Query.new must should).must ∈ tokenize must 1 ∧
    (∀ t ∈ tokenize must 1,
      t.utf8ByteSize ≤ (Query.new must should).must.utf8ByteSize) ∧
    ∃ rest, (Query.new must should).should = should ++ rest ∧
      List.Perm ((Query.new must should).must :: rest) (tokenize must 1) := by
  have hperm : List.Perm (sortByLenDesc (tokenize must 1)) (tokenize must 1) :=
    List.perm_insertionSort lenGE (tokenize must 1)
  have hsorted : List.Sorted lenGE (sortByLenDesc (tokenize must 1)) :=
    List.sorted_insertionSort lenGE (tokenize must 1)
  have hgt : (tokenize must 1).length > 1 := by omega
  have hmust : (Query.new must should).must =
      (sortByLenDesc (tokenize must 1)).headD "" := by
    simp [Query.new, hgt]
  have hshould : (Query.new must should).should =
      should ++ (sortByLenDesc (tokenize must 1)).tail := by
    simp [Query.new, hgt]
  obtain ⟨hd, tl, hcons⟩ : ∃ hd tl, sortByLenDesc (tokenize must 1) = hd :: tl := by
    cases hs : sortByLenDesc (tokenize must 1) with
    | nil =>
      have := hperm.length_eq
      rw [hs] at this
      simp at this
      omega
    | cons hd tl => exact ⟨hd, tl, rfl⟩
  rw [hcons] at hperm hsorted
  rw [hcons] at hmust hshould
  simp only [List.headD_cons] at hmust
  simp only [List.tail_cons] at hshould
  refine ⟨?_, ?_, tl, hshould, ?_⟩
  · rw [hmust]
    exact hperm.mem_iff.mp (List.mem_cons_self hd tl)
  · intro t ht
    rw [hmust]
    rcases List.mem_cons.mp (hperm.mem_iff.mpr ht) with h1 | h1
    · exact le_of_eq (by rw [h1])
    · exact List.rel_of_sorted_cons hsorted t h1
  · rw [hmust]
    exact hperm

theorem query_new_multi_token_split_witness :
    2 ≤ (tokenize "ab c" 1).length ∧
    ((Query.new "ab c" ["x"]).must ∈ tokenize "ab c" 1 ∧
     (∀ t ∈ tokenize "ab c" 1,
       t.utf8ByteSize ≤ (Query.new "ab c" ["x"]).must.utf8ByteSize) ∧
     ∃ rest, (Query.new "ab c" ["x"]).should = ["x"] ++ rest ∧
       List.Perm ((Query.new "ab c" ["x"]).must :: rest) (tokenize "ab c" 1)) :=
  ⟨by decide, query_new_multi_token_split "ab c" ["x"] (by decide)⟩

/-- C2: every search result list is sorted under the final key and is no
longer than the query limit when one is set. -/
theorem search_results_sorted_and_limited (ind : Indexer) (c : Cache)
    (q : Query) :
    List.Pairwise resLE (Index.search ind c q).1 ∧
    ∀ l, q.limit = some l → (Index.search ind c q).1.length ≤ l := by
  have key : ∀ (hm : Heatmap) (ss : List (Nat × ℚ)),
      List.Pairwise resLE (Index.filtered_results ind q hm ss) ∧
      ∀ l, q.limit = some l →
        (Index.filtered_results ind q hm ss).length ≤ l := by
    intro hm ss
    constructor
    · show List.Pairwise resLE ((List.insertionSort resLE _).take _)
      exact (List.sorted_insertionSort resLE _).sublist (List.take_sublist _ _)
    · intro l hl
      show ((List.insertionSort resLE _).take (q.limit.getD usizeMax)).length ≤ l
      rw [hl]
      simp
  exact key (Index.create_heatmap ind c q.must).1
    (Index.should_scores ind (Index.create_heatmap ind c q.must).1
      q.should q.constraint)

def search_results_sorted_and_limited_witness_query : Query :=
  (Query.new "abc" []).limit' (some 1)

theorem search_results_sorted_and_limited_witness :
    List.Pairwise resLE
      (Index.search Indexer.new (Cache.new 2000)
        search_results_sorted_and_limited_witness_query).1 ∧
    (Index.search Indexer.new (Cache.new 2000)
        search_results_sorted_and_limited_witness_query).1.length ≤ 1 :=
  ⟨(search_results_sorted_and_limited Indexer.new (Cache.new 2000)
      search_results_sorted_and_limited_witness_query).1,
   (search_results_sorted_and_limited Indexer.new (Cache.new 2000)
      search_results_sorted_and_limited_witness_query).2 1 rfl⟩

/-- unfolding lemma: the cutoff break of the scan loop fires when a
perfect-distance result is in hand and the current phrase drops below the
cutoff fraction of the leading total score. -/
theorem scanLoop_break {query : Query} {heatmap : Heatmap} {limit : Nat}
    {max_distance : Nat} {c : Candidate} {rest : List Candidate} {bd : Nat}
    {results : List SearchResult} (h1 : bd = 0)
    (h2 : c.heat.total_score < query.scan_cutoff * heatmap.max_score) :
    scanLoop query heatmap limit max_distance (c :: rest) bd results =
      results := by
  simp only [scanLoop]
  rw [if_pos ⟨h1, h2⟩]

/-- unfolding lemma: a scan step that emits a result and continues. -/
theorem scanLoop_step {query : Query} {heatmap : Heatmap} {limit : Nat}
    {max_distance : Nat} {c : Candidate} {rest : List Candidate} {bd : Nat}
    {results : List SearchResult} {token : String} {token_score : ℚ}
    {dist : Nat}
    (hnb : ¬ (bd = 0 ∧ c.heat.total_score < query.scan_cutoff * heatmap.max_score))
    (hvt : Index.valid_token query c.phrase c.heat max_distance =
      some (token, token_score, dist))
    (hnl : ¬ (min dist bd = 0 ∧ limit ≤ results.length + 1)) :
    scanLoop query heatmap limit max_distance (c :: rest) bd results =
      scanLoop query heatmap limit max_distance rest (min dist bd)
        (results ++ [{ origin := c.phrase.origin, index := c.phrase.idx,
                       token := token, distance := dist, score := token_score,
                       should_score := c.should_score }]) := by
  simp only [scanLoop, hvt]
  rw [if_neg hnb]
  simp only [List.length_append, List.length_cons, List.length_nil]
  rw [if_neg (by simpa using hnl)]

/-- C1 amended: the candidate scan order of filtered_results is
non-increasing in the combined score total_score + should_score (hence
every phrase after the break point has a combined score no larger than
the one at the break point). -/
theorem scan_candidates_combined_score_antitone (ind : Indexer) (q : Query)
    (hm : Heatmap) (ss : List (Nat × ℚ)) :
    List.Pairwise
      (fun a b => b.heat.total_score + b.should_score ≤
        a.heat.total_score + a.should_score)
      (Index.scan_candidates ind q hm ss) := by
  have hs : List.Sorted scanLE (Index.scan_candidates ind q hm ss) :=
    List.sorted_insertionSort scanLE _
  refine hs.imp ?_
  intro a b h
  rcases (Prod.Lex.le_iff _ _).mp h with h1 | ⟨h1, _⟩
  · have : -(a.heat.total_score + a.should_score) <
        -(b.heat.total_score + b.should_score) := h1
    linarith
  · have : -(a.heat.total_score + a.should_score) =
        -(b.heat.total_score + b.should_score) := h1
    linarith

/-! concrete run refuting the literal wording of C1: three candidate
phrases whose combined-score scan order is not total_score-ordered, and
on which the cutoff break skips a phrase whose total_score is above the
cutoff threshold. -/

def exPhrase1 : PhraseEntry := PhraseEntry.new 1 "xy qq" []

def exPhrase2 : PhraseEntry := PhraseEntry.new 2 "ab" []

def exPhrase3 : PhraseEntry := PhraseEntry.new 3 "xy" []

def exIndexer : Indexer :=
  { db := [], phrases := [(1, exPhrase1), (2, exPhrase2), (3, exPhrase3)] }

def exHeat1 : PhraseHeatmap :=
  { phrase_idx := 1, tokens := [(0, mkRat 9 20), (1, mkRat 9 20)],
    total_score := mkRat 9 10 }

def exHeat2 : PhraseHeatmap :=
  { phrase_idx := 2, tokens := [(0, mkRat 1 5)], total_score := mkRat 1 5 }

def exHeat3 : PhraseHeatmap :=
  { phrase_idx := 3, tokens := [(0, mkRat 1 2)], total_score := mkRat 1 2 }

def exHeatmap : Heatmap :=
  { phrases := [(1, exHeat1), (2, exHeat2), (3, exHeat3)],
    max_score := mkRat 9 10 }

def exShould : List (Nat × ℚ) := [(1, mkRat 11 20), (2, mkRat 9 10)]

def exQuery : Query := Query.new "xy" []

def exCand1 : Candidate :=
  { heat := exHeat1, phrase := exPhrase1, should_score := mkRat 11 20 }

def exCand2 : Candidate :=
  { heat := exHeat2, phrase := exPhrase2, should_score := mkRat 9 10 }

def exCand3 : Candidate :=
  { heat := exHeat3, phrase := exPhrase3, should_score := 0 }

def exRes1 : SearchResult :=
  { origin := "xy qq", index := 1, token := "xy", distance := 0,
    score := mkRat 9 20, should_score := mkRat 11 20 }

/-- C1 counterexample: in this filtered_results run the scan order is not
non-increasing in total_score (totals run 9/10, 1/5, 1/2), the cutoff
break fires at the second candidate (best distance 0 in hand, 1/5 below
the cutoff threshold 27/100), and the third, never-scanned candidate has
total_score 1/2 above the threshold and a distance-0 token — so only
phrase 1 is returned although phrase 3 matches perfectly. -/
theorem c1_cutoff_scan_order_counterexample :
    ¬ List.Pairwise (fun a b => b.heat.total_score ≤ a.heat.total_score)
        (Index.scan_candidates exIndexer exQuery exHeatmap exShould) ∧
    (Index.filtered_results exIndexer exQuery exHeatmap exShould).map
        (fun r => r.index) = [1] ∧
    exCand2.heat.total_score < exQuery.scan_cutoff * exHeatmap.max_score ∧
    ¬ (exCand3.heat.total_score < exQuery.scan_cutoff * exHeatmap.max_score) ∧
    Index.valid_token exQuery exPhrase3 exHeat3 2 = some ("xy", mkRat 1 2, 0) := by
  have hcut2 : exCand2.heat.total_score <
      exQuery.scan_cutoff * exHeatmap.max_score := by
    show (mkRat 1 5) < exQuery.scan_cutoff * (mkRat 9 10)
    have : exQuery.scan_cutoff = 3 / 10 := rfl
    rw [this]
    norm_num [Rat.mkRat_eq_div]
  have hcut3 : ¬ (exCand3.heat.total_score <
      exQuery.scan_cutoff * exHeatmap.max_score) := by
    show ¬ ((mkRat 1 2) < exQuery.scan_cutoff * (mkRat 9 10))
    have : exQuery.scan_cutoff = 3 / 10 := rfl
    rw [this]
    norm_num [Rat.mkRat_eq_div]
  have hA : scanLE exCand2 exCand3 := by
    refine (Prod.Lex.le_iff _ _).mpr (Or.inl ?_)
    show -(exCand2.heat.total_score + exCand2.should_score) <
      -(exCand3.heat.total_score + exCand3.should_score)
    show -((mkRat 1 5) + (mkRat 9 10)) < -((mkRat 1 2) + 0)
    norm_num [Rat.mkRat_eq_div]
  have hB : scanLE exCand1 exCand2 := by
    refine (Prod.Lex.le_iff _ _).mpr (Or.inl ?_)
    show -((mkRat 9 10) + (mkRat 11 20)) < -((mkRat 1 5) + (mkRat 9 10))
    norm_num [Rat.mkRat_eq_div]
  have e2 : List.orderedInsert scanLE exCand2 [exCand3] = [exCand2, exCand3] := by
    simp only [List.orderedInsert]
    rw [if_pos hA]
  have e3 : List.orderedInsert scanLE exCand1 [exCand2, exCand3] =
      [exCand1, exCand2, exCand3] := by
    simp only [List.orderedInsert]
    rw [if_pos hB]
  have hscan : Index.scan_candidates exIndexer exQuery exHeatmap exShould =
      [exCand1, exCand2, exCand3] := by
    have e0 : Index.scan_candidates exIndexer exQuery exHeatmap exShould =
        List.orderedInsert scanLE exCand1
          (List.orderedInsert scanLE exCand2 [exCand3]) := rfl
    rw [e0, e2, e3]
  have hvt1 : Index.valid_token exQuery exCand1.phrase exCand1.heat 2 =
      some ("xy", mkRat 9 20, 0) := by decide
  have hloop : scanLoop exQuery exHeatmap usizeMax 2
      [exCand1, exCand2, exCand3] usizeMax [] = [exRes1] := by
    rw [scanLoop_step (by rintro ⟨h0, -⟩; exact absurd h0 (by decide)) hvt1
      (by rintro ⟨-, hl⟩; exact absurd hl (by decide))]
    rw [scanLoop_break (by decide) hcut2]
    rfl
  have hfilt : Index.filtered_results exIndexer exQuery exHeatmap exShould =
      [exRes1] := by
    show (List.insertionSort resLE
        (scanLoop exQuery exHeatmap usizeMax 2
          (Index.scan_candidates exIndexer exQuery exHeatmap exShould)
          usizeMax [])).take usizeMax = [exRes1]
    rw [hscan, hloop]
    rfl
  refine ⟨?_, ?_, hcut2, hcut3, by decide⟩
  · rw [hscan]
    intro hp
    have h23 : exCand3.heat.total_score ≤ exCand2.heat.total_score := by
      have := List.pairwise_cons.mp (List.pairwise_cons.mp hp).2
      exact this.1 exCand3 (List.mem_singleton_self exCand3)
    exact absurd h23 (by decide)
  · rw [hfilt]
    rfl

/-- lookup of the key just consed onto an association list. -/
theorem lookup_cons_self {α β : Type} [BEq α] [LawfulBEq α] (k : α) (v : β)
    (l : List (α × β)) : ((k, v) :: l).lookup k = some v := by
  simp [List.lookup]

/-- a successful lookup is a membership. -/
theorem mem_of_lookup_eq_some {α β : Type} [BEq α] [LawfulBEq α]
    {l : List (α × β)} {k : α} {v : β} (h : l.lookup k = some v) :
    (k, v) ∈ l := by
  induction l with
  | nil => simp [List.lookup] at h
  | cons hd tl ih =>
    obtain ⟨k', v'⟩ := hd
    simp only [List.lookup] at h
    split at h
    · next heq =>
      cases h
      have : k = k' := by simpa using heq
      subst this
      exact List.mem_cons_self _ _
    · exact List.mem_cons_of_mem _ (ih h)

/-- every cached heatmap is the computed heatmap of its token (true of
every cache state reachable by searches on one frozen index: the cache
starts empty and create_heatmap only inserts computed heatmaps). -/
def CacheConsistent (db : List (String × TrigramEntry)) (c : Cache) : Prop :=
  ∀ e ∈ c.heatmaps, e.2 = computeHeatmap db e.1

/-- a token none of whose trigrams hits the db produces the empty
heatmap. -/
theorem computeHeatmap_eq_new_of_no_hits {db : List (String × TrigramEntry)}
    {token : String} (h : ∀ tg ∈ trigramize token, db.lookup tg = none) :
    computeHeatmap db token = Heatmap.new := by
  unfold computeHeatmap
  generalize trigramize token = l at h
  induction l with
  | nil => rfl
  | cons hd tl ih =>
    rw [List.foldl_cons, h hd (List.mem_cons_self hd tl)]
    exact ih (fun tg ht => h tg (List.mem_cons_of_mem hd ht))

/-- filtered_results on an empty heatmap yields no results. -/
theorem filtered_results_empty_heatmap (ind : Indexer) (q : Query)
    (hm : Heatmap) (ss : List (Nat × ℚ)) (h : hm.phrases = []) :
    Index.filtered_results ind q hm ss = [] := by
  unfold Index.filtered_results Index.scan_candidates
  rw [h]
  simp [scanLoop, List.insertionSort]

/-- the heatmap used by a search is always the computed heatmap of the
must token, provided the cache is consistent. -/
theorem create_heatmap_fst (ind : Indexer) (c : Cache) (token : String)
    (hinv : CacheConsistent ind.db c) :
    (Index.create_heatmap ind c token).1 = computeHeatmap ind.db token := by
  unfold Index.create_heatmap
  cases hl : c.heatmaps.lookup token with
  | none => rfl
  | some hm => exact hinv (token, hm) (mem_of_lookup_eq_some hl)

/-- C9: an empty Indexer freezes without scoring (the frozen db is empty)
to an Index whose searches all return []; and on any Index a query whose
must token shares no trigram with the db returns [], not an error. -/
theorem empty_db_and_no_hit_searches_return_empty (ind : Indexer) (c : Cache)
    (q : Query) (hinv : CacheConsistent ind.db c) :
    frozenDb ([] : List (String × TrigramEntry)) = [] ∧
    (ind.db = [] → (Index.search ind c q).1 = []) ∧
    ((∀ tg ∈ trigramize q.must, ind.db.lookup tg = none) →
      (Index.search ind c q).1 = []) := by
  have hheat : (Index.create_heatmap ind c q.must).1 =
      computeHeatmap ind.db q.must := create_heatmap_fst ind c q.must hinv
  refine ⟨by simp [frozenDb], ?_, ?_⟩
  · intro hdb
    show Index.filtered_results ind q (Index.create_heatmap ind c q.must).1 _ = []
    rw [hheat, computeHeatmap_eq_new_of_no_hits (fun tg _ => by rw [hdb]; rfl)]
    exact filtered_results_empty_heatmap ind q _ _ rfl
  · intro hno
    show Index.filtered_results ind q (Index.create_heatmap ind c q.must).1 _ = []
    rw [hheat, computeHeatmap_eq_new_of_no_hits hno]
    exact filtered_results_empty_heatmap ind q _ _ rfl

theorem empty_db_and_no_hit_searches_return_empty_witness :
    (Index.search Indexer.new (Cache.new 2000) (Query.new "abc" [])).1 = [] :=
  (empty_db_and_no_hit_searches_return_empty Indexer.new (Cache.new 2000)
    (Query.new "abc" []) (fun e he => by simp [Cache.new] at he)).2.1 rfl

/-- after an LRU bump the bumped token is at the front. -/
theorem lookup_lruBump_self (entries : List (String × Heatmap)) (token : String)
    (h : Heatmap) : (lruBump entries token h).lookup token = some h :=
  lookup_cons_self token h _

/-- after an LRU put with positive capacity the inserted token is found. -/
theorem lookup_lruPut_self (cap : Nat) (entries : List (String × Heatmap))
    (token : String) (h : Heatmap) (hcap : 1 ≤ cap) :
    (lruPut cap entries token h).lookup token = some h := by
  cases cap with
  | zero => omega
  | succ k =>
    unfold lruPut
    rw [List.take_succ_cons]
    exact lookup_cons_self token h _

/-- C6: two consecutive searches with the same query on the same Index
return equal result lists (the cache hit on the second call does not
change the value), and the second call increases cache_stats.hits by
exactly 1. -/
theorem search_idempotent_and_second_hits (ind : Indexer) (c : Cache)
    (q : Query) (hcap : 1 ≤ c.capacity) :
    (Index.search ind (Index.search ind c q).2 q).1 =
      (Index.search ind c q).1 ∧
    (Index.cache_stats (Index.search ind (Index.search ind c q).2 q).2).hits =
      (Index.cache_stats (Index.search ind c q).2).hits + 1 := by
  simp only [Index.search, Index.create_heatmap]
  cases hl : c.heatmaps.lookup q.must with
  | some hm =>
    simp only [hl, lookup_lruBump_self]
    exact ⟨trivial, by simp [Index.cache_stats]⟩
  | none =>
    simp only [hl, lookup_lruPut_self c.capacity c.heatmaps q.must
      (computeHeatmap ind.db q.must) hcap]
    exact ⟨trivial, by simp [Index.cache_stats]⟩

theorem search_idempotent_and_second_hits_witness :
    (Index.search exIndexer
        (Index.search exIndexer (Cache.new 2000) exQuery).2 exQuery).1 =
      (Index.search exIndexer (Cache.new 2000) exQuery).1 ∧
    (Index.cache_stats (Index.search exIndexer
        (Index.search exIndexer (Cache.new 2000) exQuery).2 exQuery).2).hits =
      (Index.cache_stats
        (Index.search exIndexer (Cache.new 2000) exQuery).2).hits + 1 :=
  search_idempotent_and_second_hits exIndexer (Cache.new 2000) exQuery
    (by decide)

/-- positions found after one dbAdd: either an old position of an old
entry under the same trigram, or exactly the appended position under the
added trigram. -/
theorem mem_dbAdd_cases {db : List (String × TrigramEntry)} {tg' : String}
    {pos : Position} {tg : String} {e : TrigramEntry}
    (h : (tg, e) ∈ dbAdd db tg' pos) :
    ∀ q ∈ e.positions,
      (∃ e₀, (tg, e₀) ∈ db ∧ q ∈ e₀.positions) ∨ (q = pos ∧ tg = tg') := by
  induction db with
  | nil =>
    simp only [dbAdd, List.mem_singleton, Prod.mk.injEq] at h
    obtain ⟨rfl, rfl⟩ := h
    intro q hq
    simp only [List.mem_singleton] at hq
    exact Or.inr ⟨hq, rfl⟩
  | cons hd tl ih =>
    obtain ⟨t, e'⟩ := hd
    by_cases ht : t = tg'
    · subst ht
      rw [dbAdd, if_pos rfl] at h
      rcases List.mem_cons.mp h with h1 | h1
      · obtain ⟨rfl, rfl⟩ := Prod.mk.injEq .. |>.mp h1
        intro q hq
        rcases List.mem_append.mp hq with h2 | h2
        · exact Or.inl ⟨e', List.mem_cons_self _ _, h2⟩
        · simp only [List.mem_singleton] at h2
          exact Or.inr ⟨h2, rfl⟩
      · intro q hq
        exact Or.inl ⟨e, List.mem_cons_of_mem _ h1, hq⟩
    · rw [dbAdd, if_neg ht] at h
      rcases List.mem_cons.mp h with h1 | h1
      · obtain ⟨h1a, h1b⟩ := Prod.mk.injEq .. |>.mp h1
        subst h1a
        intro q hq
        exact Or.inl ⟨e', List.mem_cons_self _ _, h1b ▸ hq⟩
      · intro q hq
        rcases ih h1 q hq with ⟨e₀, he₀, hq₀⟩ | h2
        · exact Or.inl ⟨e₀, List.mem_cons_of_mem _ he₀, hq₀⟩
        · exact Or.inr h2

/-- positions found after folding dbAdd over a trigram list. -/
theorem mem_foldl_dbAdd_cases {l : List String}
    {db : List (String × TrigramEntry)} {pos : Position} {tg : String}
    {e : TrigramEntry}
    (h : (tg, e) ∈ l.foldl (fun d t => dbAdd d t pos) db) :
    ∀ q ∈ e.positions,
      (∃ e₀, (tg, e₀) ∈ db ∧ q ∈ e₀.positions) ∨ (q = pos ∧ tg ∈ l) := by
  induction l generalizing db with
  | nil => exact fun q hq => Or.inl ⟨e, h, hq⟩
  | cons hd tl ih =>
    intro q hq
    rw [List.foldl_cons] at h
    rcases ih h q hq with ⟨e₀, he₀, hq₀⟩ | h2
    · rcases mem_dbAdd_cases he₀ q hq₀ with h1 | h3
      · exact Or.inl h1
      · exact Or.inr ⟨h3.1, h3.2 ▸ List.mem_cons_self _ _⟩
    · exact Or.inr ⟨h2.1, List.mem_cons_of_mem _ h2.2⟩

/-- folding add_token over the token list leaves the phrase table alone. -/
theorem foldl_add_token_phrases (L : List (Nat × String)) (ind : Indexer)
    (pidx : Nat) :
    (L.foldl (fun acc p => acc.add_token p.2 pidx p.1) ind).phrases =
      ind.phrases := by
  induction L generalizing ind with
  | nil => rfl
  | cons hd tl ih =>
    rw [List.foldl_cons]
    exact ih _

/-- positions found after the add_token fold of add_phrase: either an old
position in the untouched state, or a position of the new phrase whose
token index names a token of the processed list and whose trigram comes
from that token. -/
theorem mem_foldl_add_token_cases {L : List (Nat × String)} {ind : Indexer}
    {pidx : Nat} {tg : String} {e : TrigramEntry}
    (h : (tg, e) ∈ (L.foldl (fun acc p => acc.add_token p.2 pidx p.1) ind).db) :
    ∀ q ∈ e.positions,
      (∃ e₀, (tg, e₀) ∈ ind.db ∧ q ∈ e₀.positions) ∨
      (q.phrase_idx = pidx ∧
        ∃ tok, (q.token_idx, tok) ∈ L ∧ tg ∈ trigramize tok) := by
  induction L generalizing ind with
  | nil => exact fun q hq => Or.inl ⟨e, h, hq⟩
  | cons hd tl ih =>
    intro q hq
    rw [List.foldl_cons] at h
    rcases ih h q hq with ⟨e₀, he₀, hq₀⟩ | ⟨hp, tok, htok, htg⟩
    · rcases mem_foldl_dbAdd_cases he₀ q hq₀ with h1 | ⟨hq1, htg1⟩
      · exact Or.inl h1
      · refine Or.inr ⟨by rw [hq1], hd.2, ?_, htg1⟩
        rw [hq1]
        exact (by simp : ((hd.1, hd.2) : Nat × String) ∈ hd :: tl)
    · exact Or.inr ⟨hp, tok, List.mem_cons_of_mem _ htok, htg⟩

/-- lookup through an append, key found on the left. -/
theorem lookup_append_left {α β : Type} [BEq α] [LawfulBEq α]
    {l₁ l₂ : List (α × β)} {k : α} {v : β} (h : l₁.lookup k = some v) :
    (l₁ ++ l₂).lookup k = some v := by
  induction l₁ with
  | nil => simp [List.lookup] at h
  | cons hd tl ih =>
    obtain ⟨k', v'⟩ := hd
    simp only [List.lookup, List.cons_append] at h ⊢
    split at h
    · exact h
    · exact ih h

/-- lookup through an append, key absent on the left. -/
theorem lookup_append_right {α β : Type} [BEq α] [LawfulBEq α]
    {l₁ l₂ : List (α × β)} {k : α} (h : l₁.lookup k = none) :
    (l₁ ++ l₂).lookup k = l₂.lookup k := by
  induction l₁ with
  | nil => rfl
  | cons hd tl ih =>
    obtain ⟨k', v'⟩ := hd
    simp only [List.lookup, List.cons_append] at h ⊢
    split at h
    · cases h
    · exact ih h

/-- C4: in every Indexer reachable by add_phrase calls, every Position
stored under a trigram names an existing phrase, an in-range token of it,
and a trigram of that token. -/
theorem positions_wellformed (ind : Indexer) (h : Reachable ind)
    (tg : String) (e : TrigramEntry) (hmem : (tg, e) ∈ ind.db)
    (pos : Position) (hpos : pos ∈ e.positions) :
    ∃ pe, ind.phrases.lookup pos.phrase_idx = some pe ∧
      ∃ tok, pe.tokens[pos.token_idx]? = some tok ∧ tg ∈ trigramize tok := by
  induction h generalizing tg e pos with
  | new => simp [Indexer.new] at hmem
  | add phrase pidx cs ind₀ hr ih =>
    by_cases hdup : (ind₀.phrases.lookup pidx).isSome
    · rw [show (ind₀.add_phrase phrase pidx cs).1 = ind₀ by
        simp [Indexer.add_phrase, hdup]] at hmem ⊢
      exact ih tg e hmem pos hpos
    · have hlook : ind₀.phrases.lookup pidx = none :=
        Option.not_isSome_iff_eq_none.mp hdup
      have hform : (ind₀.add_phrase phrase pidx cs).1 =
          { db := ((PhraseEntry.new pidx phrase cs).tokens.enum.foldl
              (fun acc p => acc.add_token p.2 pidx p.1) ind₀).db,
            phrases := ((PhraseEntry.new pidx phrase cs).tokens.enum.foldl
              (fun acc p => acc.add_token p.2 pidx p.1) ind₀).phrases ++
              [(pidx, PhraseEntry.new pidx phrase cs)] } := by
        simp [Indexer.add_phrase, hlook]
      rw [hform] at hmem ⊢
      simp only [] at hmem ⊢
      rw [foldl_add_token_phrases]
      rcases mem_foldl_add_token_cases hmem pos hpos with
        ⟨e₀, he₀, hq₀⟩ | ⟨hp, tok, htok, htg⟩
      · obtain ⟨pe, hpe, tok, htok', htg'⟩ := ih tg e₀ he₀ pos hq₀
        exact ⟨pe, lookup_append_left hpe, tok, htok', htg'⟩
      · refine ⟨PhraseEntry.new pidx phrase cs, ?_, tok, ?_, htg⟩
        · rw [hp, lookup_append_right hlook]
          exact lookup_cons_self pidx _ _
        · exact List.mk_mem_enum_iff_getElem?.mp htok

theorem positions_wellformed_witness :
    ∃ pe, (Indexer.new.add_phrase "ab" 1 []).1.phrases.lookup 1 = some pe ∧
      ∃ tok, pe.tokens[(0 : Nat)]? = some tok ∧ "ab " ∈ trigramize tok :=
  positions_wellformed (Indexer.new.add_phrase "ab" 1 []).1
    (Reachable.add "ab" 1 [] Indexer.new Reachable.new)
    "ab " { positions := [{ phrase_idx := 1, token_idx := 0 }], score := 0 + 1 }
    (List.mem_singleton.mpr rfl)
    { phrase_idx := 1, token_idx := 0 } (List.mem_singleton.mpr rfl)

/-- dbAdd keeps every entry score equal to its position count. -/
theorem score_eq_count_dbAdd {db : List (String × TrigramEntry)} {tg : String}
    {pos : Position}
    (h : ∀ e ∈ db, e.2.score = (e.2.positions.length : ℚ)) :
    ∀ e ∈ dbAdd db tg pos, e.2.score = (e.2.positions.length : ℚ) := by
  induction db with
  | nil =>
    intro e he
    simp only [dbAdd, List.mem_singleton] at he
    subst he
    simp
  | cons hd tl ih =>
    obtain ⟨t, e'⟩ := hd
    intro e he
    by_cases ht : t = tg
    · subst ht
      rw [dbAdd, if_pos rfl] at he
      rcases List.mem_cons.mp he with h1 | h1
      · subst h1
        have hold := h (t, e') (List.mem_cons_self _ _)
        simp only [List.length_append, List.length_cons, List.length_nil] at hold ⊢
        rw [hold]
        push_cast
        ring
      · exact h e (List.mem_cons_of_mem _ h1)
    · rw [dbAdd, if_neg ht] at he
      rcases List.mem_cons.mp he with h1 | h1
      · subst h1
        exact h _ (List.mem_cons_self _ _)
      · exact ih (fun e he => h e (List.mem_cons_of_mem _ he)) e h1

/-- the dbAdd fold of add_token keeps scores equal to position counts. -/
theorem score_eq_count_foldl_dbAdd {l : List String}
    {db : List (String × TrigramEntry)} {pos : Position}
    (h : ∀ e ∈ db, e.2.score = (e.2.positions.length : ℚ)) :
    ∀ e ∈ l.foldl (fun d t => dbAdd d t pos) db,
      e.2.score = (e.2.positions.length : ℚ) := by
  induction l generalizing db with
  | nil => exact h
  | cons hd tl ih =>
    rw [List.foldl_cons]
    exact ih (score_eq_count_dbAdd h)

/-- the add_token fold of add_phrase keeps scores equal to position
counts. -/
theorem score_eq_count_foldl_add_token {L : List (Nat × String)}
    {ind : Indexer} {pidx : Nat}
    (h : ∀ e ∈ ind.db, e.2.score = (e.2.positions.length : ℚ)) :
    ∀ e ∈ (L.foldl (fun acc p => acc.add_token p.2 pidx p.1) ind).db,
      e.2.score = (e.2.positions.length : ℚ) := by
  induction L generalizing ind with
  | nil => exact h
  | cons hd tl ih =>
    rw [List.foldl_cons]
    exact ih (score_eq_count_foldl_dbAdd h)

/-- in every reachable Indexer the f32 counter in each trigram entry
equals the number of stored positions. -/
theorem score_eq_count_reachable (ind : Indexer) (h : Reachable ind) :
    ∀ e ∈ ind.db, e.2.score = (e.2.positions.length : ℚ) := by
  induction h with
  | new => intro e he; simp [Indexer.new] at he
  | add phrase pidx cs ind₀ hr ih =>
    by_cases hdup : (ind₀.phrases.lookup pidx).isSome
    · rw [show (ind₀.add_phrase phrase pidx cs).1 = ind₀ by
        simp [Indexer.add_phrase, hdup]]
      exact ih
    · have hlook : ind₀.phrases.lookup pidx = none :=
        Option.not_isSome_iff_eq_none.mp hdup
      intro e he
      have hdb : (ind₀.add_phrase phrase pidx cs).1.db =
          ((PhraseEntry.new pidx phrase cs).tokens.enum.foldl
            (fun acc p => acc.add_token p.2 pidx p.1) ind₀).db := by
        simp [Indexer.add_phrase, hlook]
      rw [hdb] at he
      exact score_eq_count_foldl_add_token ih e he

theorem tanh_lt_one (x : ℝ) : Real.tanh x < 1 := by
  rw [Real.tanh_eq_sinh_div_cosh, div_lt_one (Real.cosh_pos x)]
  have h1 := Real.cosh_sub_sinh x
  have h2 := Real.exp_pos (-x)
  linarith

theorem neg_one_lt_tanh (x : ℝ) : -1 < Real.tanh x := by
  rw [Real.tanh_eq_sinh_div_cosh, lt_div_iff₀ (Real.cosh_pos x)]
  have h1 := Real.cosh_add_sinh x
  have h2 := Real.exp_pos x
  linarith

/-- C3: after finish_with_cache on a non-empty reachable Indexer, every
frozen trigram score is 0.5 + 0.5·tanh(5·(avg − c_t − 1)/max) with c_t
the position count of the trigram, and in particular lies in [0, 1]. -/
theorem frozen_scores_formula_and_bounds (ind : Indexer) (h : Reachable ind)
    (hne : ind.db ≠ []) (tg : String) (p : List Position × ℝ)
    (hmem : (tg, p) ∈ frozenDb ind.db) :
    p.2 = 0.5 + 0.5 * Real.tanh
      (5 * (dbAverage ind.db - (p.1.length : ℝ) - 1) /
        (dbMaxCount ind.db : ℝ)) ∧
    0 ≤ p.2 ∧ p.2 ≤ 1 := by
  have hie : ¬ (ind.db.isEmpty = true) := by
    simpa [List.isEmpty_iff] using hne
  rw [frozenDb, if_neg hie] at hmem
  obtain ⟨⟨t₀, e₀⟩, hmem₀, heq⟩ := List.mem_map.mp hmem
  obtain ⟨rfl, rfl⟩ := Prod.mk.injEq .. |>.mp heq
  have hsc : e₀.score = (e₀.positions.length : ℚ) :=
    score_eq_count_reachable ind h (t₀, e₀) hmem₀
  have hform : trigram_score (dbAverage ind.db) (dbMaxCount ind.db) e₀.score =
      0.5 + 0.5 * Real.tanh
        (5 * (dbAverage ind.db - (e₀.positions.length : ℝ) - 1) /
          (dbMaxCount ind.db : ℝ)) := by
    unfold trigram_score
    rw [hsc]
    push_cast
    ring
  refine ⟨hform, ?_, ?_⟩
  · have := neg_one_lt_tanh (5 * (dbAverage ind.db - (e₀.score : ℝ) - 1) /
      (dbMaxCount ind.db : ℝ))
    unfold trigram_score
    linarith
  · have := tanh_lt_one (5 * (dbAverage ind.db - (e₀.score : ℝ) - 1) /
      (dbMaxCount ind.db : ℝ))
    unfold trigram_score
    linarith

def wIndexer : Indexer := (Indexer.new.add_phrase "ab" 1 []).1

theorem frozen_scores_formula_and_bounds_witness :
    trigram_score (dbAverage wIndexer.db) (dbMaxCount wIndexer.db) (0 + 1) =
      0.5 + 0.5 * Real.tanh
        (5 * (dbAverage wIndexer.db -
          (([{ phrase_idx := 1, token_idx := 0 }] : List Position).length : ℝ) - 1) /
          (dbMaxCount wIndexer.db : ℝ)) ∧
    0 ≤ trigram_score (dbAverage wIndexer.db) (dbMaxCount wIndexer.db) (0 + 1) ∧
    trigram_score (dbAverage wIndexer.db) (dbMaxCount wIndexer.db) (0 + 1) ≤ 1 :=
  frozen_scores_formula_and_bounds wIndexer
    (Reachable.add "ab" 1 [] Indexer.new Reachable.new)
    (List.cons_ne_nil _ _)
    "ab "
    ([{ phrase_idx := 1, token_idx := 0 }],
      trigram_score (dbAverage wIndexer.db) (dbMaxCount wIndexer.db) (0 + 1))
    (List.mem_singleton.mpr rfl)

/-- C8 counterexample: Indexer::finish_with_cache accepts cache_size 0 and
produces the frozen Index (capacity 0, nothing rejected), and the binding
finish with no explicit cache_size uses capacity 10000, not 2000. -/
theorem c8_finish_zero_not_rejected_counterexample :
    (Indexer.finish_with_cache Indexer.new 0).2.capacity = 0 ∧
    pyFinish (FuzzDex.indexer Indexer.new) none =
      Except.ok (FuzzDex.index Indexer.new (Cache.new 10000)) ∧
    (10000 : Nat) ≠ 2000 :=
  ⟨rfl, rfl, by decide⟩

/-- C8 amended: Indexer::finish_with_cache accepts cache_size 0 and
returns the Index with that capacity, Indexer::finish defaults to
capacity 2000; only the Python-binding finish rejects cache_size 0 with a
runtime error (before any state change), and its own default is 10000. -/
theorem c8_finish_cache_size_behavior (ind : Indexer) (cs : Nat) :
    pyFinish (FuzzDex.indexer ind) (some 0) =
      Except.error { msg := "Cache size must be at least 1" } ∧
    (ind.finish_with_cache cs).2.capacity = cs ∧
    (ind.finish).2.capacity = 2000 ∧
    pyFinish (FuzzDex.indexer ind) none =
      Except.ok (FuzzDex.index ind (Cache.new 10000)) :=
  ⟨rfl, rfl, rfl, rfl⟩
